import Mathlib

/-!
Verification development for the `kgl_deepfake` data-preparation repository.

The repository has three source files:
* `src/utils.py` — face-box geometry (`extend_rect_to_square`) and the
  neural-detector extraction loop (`read_faces_from_video`);
* `src/prepare_data.py` — the offline dataset-preparation orchestrator
  (naming, per-video save step, parallel extraction, metadata writing,
  grouped train/validation split);
* `src/dali_dataset.py` — the GPU frame-sampling pipeline.

Pure functions are embedded as Lean functions; filesystem state is passed
explicitly as a list of existing paths; the external face detector and the
image-write primitive are oracles passed as arguments; Python exceptions
become `Except`/`Sum` values.  Python `int` is `Int` (arbitrary precision);
detector confidences (floats compared only by order) are modelled as `ℚ`.
-/

/-- Modelled from the spec: `config.py` (the Configuration Registry, §4.1) is
not under `src/`; only its constants are read by the source files.  The spec
fixes `FRAMES_PER_VIDEO = 8` and names the paths without giving their values,
so the registry is modelled as a record of the constants the embedded code
reads. -/
structure Config where
  framesPerVideo : Nat
  trainFacesDir : String
  imgSize : Nat

namespace Utils

/-- The extension step of `utils.extend_rect_to_square` (source lines 29–38),
before the final clamping: the shorter side of the box is grown on both ends
by `difference // 2`.  `difference` is nonnegative in the branch where it is
used, so Python's floor division `// 2` agrees with `Int` division `/ 2`. -/
def extend_rect_unclamped (start_x start_y end_x end_y : Int) :
    Int × Int × Int × Int :=
  let width := end_x - start_x
  let height := end_y - start_y
  if width > height then
    let difference := width - height
    (start_x, start_y - difference / 2, end_x, end_y + difference / 2)
  else
    let difference := height - width
    (start_x - difference / 2, start_y, end_x + difference / 2, end_y)

/-- Embeds `utils.extend_rect_to_square` (source lines 10–44): extend the rectangle
toward a square, then clamp `start` coordinates to `0` and `end` coordinates
to the image width/height (`np.max([0, ·])` / `np.min([bound, ·])`). -/
def extend_rect_to_square (start_x start_y end_x end_y image_width image_height : Int) :
    Int × Int × Int × Int :=
  let r := extend_rect_unclamped start_x start_y end_x end_y
  (max 0 r.1, max 0 r.2.1, min image_width r.2.2.1, min image_height r.2.2.2)

end Utils

namespace Utils

/-- A crop produced by `read_faces_from_video`: the clamped pixel region
`frame[start_y:end_y, start_x:end_x]` together with the transformations the
source applies to it (`cv2.cvtColor` channel swap, `cv2.resize` to
`img_size × img_size`).  Pixel contents are outside the model. -/
structure Crop where
  start_x : Int
  start_y : Int
  end_x : Int
  end_y : Int
  swapped : Bool
  resized : Option Nat
deriving DecidableEq, Inhabited

/-- One decoded video frame as seen by the extraction loop: its pixel
dimensions (`frame.shape[0]` = height, `frame.shape[1]` = width) and the
detector's output for it — the aligned arrays `faces[0]` / `confidences[0]`
of `detector.detect`, zipped into (box, confidence) pairs.  Boxes carry the
`int(...)`-converted coordinates; float confidences, which the source only
compares by order (`np.argmax`), are modelled as `ℚ`. -/
structure Frame where
  height : Nat
  width : Nat
  detections : List ((Int × Int × Int × Int) × ℚ)

/-- Embeds `np.argmax`: the index of the first occurrence of the maximum. -/
def argmaxIdx (l : List ℚ) : Nat :=
  (List.range l.length).foldl
    (fun best i => if l.getD i 0 > l.getD best 0 then i else best) 0

/-- The body of the sampled-frame branch of `read_faces_from_video`
(source lines 63–84): if the detector returned any confidence, take the
most confident box, convert to a square via `extend_rect_to_square`, crop,
and keep the crop only when both its dimensions are positive, applying the
optional channel swap and resize. -/
def processFrame (img_size : Option Nat) (swap_channels : Bool) (frame : Frame) :
    Option Crop :=
  if frame.detections.length > 0 then
    let most_confident_face_index := argmaxIdx (frame.detections.map (·.2))
    let box := (frame.detections.getD most_confident_face_index default).1
    let r := extend_rect_to_square box.1 box.2.1 box.2.2.1 box.2.2.2
      (frame.width : Int) (frame.height : Int)
    if 0 < r.2.2.2 - r.2.1 ∧ 0 < r.2.2.1 - r.1 then
      some ⟨r.1, r.2.1, r.2.2.1, r.2.2.2, swap_channels, img_size⟩
    else
      none
  else
    none

/-- The scan loop of `read_faces_from_video` (source lines 60–86) over the
index-tagged frames: every frame is grabbed, frames with index divisible by
10 are retrieved and processed, and the loop breaks as soon as the
accumulator reaches `framesPerVideo` entries. -/
def readFacesLoop (framesPerVideo : Nat) (img_size : Option Nat)
    (swap_channels : Bool) : List (Nat × Frame) → List Crop → List Crop
  | [], faces_to_save => faces_to_save
  | (i, frame) :: rest, faces_to_save =>
    if i % 10 = 0 then
      let faces_to_save :=
        match processFrame img_size swap_channels frame with
        | some c => faces_to_save ++ [c]
        | none => faces_to_save
      if faces_to_save.length = framesPerVideo then faces_to_save
      else readFacesLoop framesPerVideo img_size swap_channels rest faces_to_save
    else readFacesLoop framesPerVideo img_size swap_channels rest faces_to_save

/-- Embeds `utils.read_faces_from_video` (source lines 47–90): scan the decoded
frames, then `assert len(faces_to_save) == config.FRAMES_PER_VIDEO` — a
failed assertion raises, modelled as `Except.error ()`. -/
def read_faces_from_video (cfg : Config) (frames : List Frame)
    (img_size : Option Nat) (swap_channels : Bool) : Except Unit (List Crop) :=
  let faces_to_save :=
    readFacesLoop cfg.framesPerVideo img_size swap_channels frames.enum []
  if faces_to_save.length = cfg.framesPerVideo then .ok faces_to_save
  else .error ()

end Utils

namespace PrepareData

/-- Helper for splitting a path on `'/'` (structural recursion so that the
kernel can evaluate it on literals). -/
def splitSlashAux : List Char → List Char → List (List Char)
  | [], cur => [cur.reverse]
  | c :: cs, cur =>
    if c = '/' then cur.reverse :: splitSlashAux cs []
    else splitSlashAux cs (c :: cur)

/-- Python `s.split('/')`. -/
def splitSlash (s : String) : List String :=
  (splitSlashAux s.toList []).map String.mk

/-- Embeds `os.path.basename` for the slash-separated paths this repository
builds: the component after the last `'/'`. -/
def basename (s : String) : String := (splitSlash s).getLastD ""

/-- Embeds `video_path.split('/')[-2]` (source line 92): the next-to-last path
component, i.e. the chunk/group directory name. -/
def penultimateComponent (s : String) : String :=
  (splitSlash s).dropLast.getLastD ""

/-- Embeds `os.path.join dir name` for a directory that does not end in a slash. -/
def pathJoin (dir name : String) : String := dir ++ "/" ++ name

/-- Embeds `prepare_data.get_image_name_from_video_name` (source lines 62–79):
strip the 4-character extension (`video_name[:-4]`) and append the frame
suffix — `_0XX`/`_00X` zero padding below 100, plain decimal from 100 up;
without a frame number just `.png`.  The source's chained comparison
`9 < frame_number < 100` selects the middle template.  Frame ordinals are
the loop indices `range(FRAMES_PER_VIDEO)`, modelled as `Nat`. -/
def get_image_name_from_video_name (video_name : String)
    (frame_number : Option Nat) : String :=
  match frame_number with
  | some f =>
    if f > 99 then video_name.dropRight 4 ++ "_" ++ toString f ++ ".png"
    else if 9 < f ∧ f < 100 then
      video_name.dropRight 4 ++ "_0" ++ toString f ++ ".png"
    else video_name.dropRight 4 ++ "_00" ++ toString f ++ ".png"
  | none => video_name.dropRight 4 ++ ".png"

/-- The per-video metadata record appended by
`extract_faces_from_videos_parallel` for each successful result:
`{'faces': ..., 'video': ..., 'group': ...}`. -/
structure FacesRecord where
  faces : List String
  video : String
  group : String
deriving DecidableEq, Inhabited

/-- Result of one `save_faces_from_video` run: the returned value (a bare
source path on failure, the `(face_paths, video_path, group)` tuple on
success), the filesystem after the run (list of existing file paths), and
how many times the face detector (`read_faces_from_video`) was invoked. -/
structure SaveOutcome where
  result : Sum String (List String × String × String)
  fs : List String
  detectorCalls : Nat
deriving DecidableEq

/-- The `face_paths` computed at the start of `save_faces_from_video`
(source lines 93–95): the `FRAMES_PER_VIDEO` deterministic crop paths of a
video. -/
def face_paths_for (cfg : Config) (video_name : String) : List String :=
  (List.range cfg.framesPerVideo).map fun i =>
    pathJoin cfg.trainFacesDir (get_image_name_from_video_name video_name (some i))

/-- The write loop of `save_faces_from_video` (source lines 110–114):
write each `(image_path, face)` pair in order with `cv2.imwrite`; a raised
write failure (oracle `writeFails`) aborts immediately.  Returns whether
all writes succeeded and the filesystem afterwards — files written before
the failure stay on disk. -/
def writeFacesLoop (writeFails : String → Bool) :
    List (String × Utils.Crop) → List String → Bool × List String
  | [], fs => (true, fs)
  | (image_path, _face) :: rest, fs =>
    if writeFails image_path then (false, fs)
    else writeFacesLoop writeFails rest (fs ++ [image_path])

/-- Embeds `prepare_data.save_faces_from_video` (source lines 82–115).  The
filesystem is the explicit `fs` argument (`os.path.exists` = membership);
the decoded frames of the video and the per-path write-failure oracle
stand for the external video decoder/detector and `cv2.imwrite`. -/
def save_faces_from_video (cfg : Config) (decoded : List Utils.Frame)
    (writeFails : String → Bool) (fs : List String) (video_path : String) :
    SaveOutcome :=
  let video_name := basename video_path
  let group := penultimateComponent video_path
  let face_paths := face_paths_for cfg video_name
  let all_exists := face_paths.all (fs.contains ·)
  if all_exists then ⟨.inr (face_paths, video_path, group), fs, 0⟩
  else
    match Utils.read_faces_from_video cfg decoded none false with
    | .error _ => ⟨.inl video_path, fs, 1⟩
    | .ok faces_to_save =>
      let (ok, fs') := writeFacesLoop writeFails (face_paths.zip faces_to_save) fs
      if ok then ⟨.inr (face_paths, video_path, group), fs', 1⟩
      else ⟨.inl video_path, fs', 1⟩

/-- What `extract_faces_from_videos_parallel` accumulates and reports:
the successful-records array it returns, the broken-videos list it writes
as a JSON array, and the printed `'{k} broken files out of {n}'` counts. -/
structure ParallelOutcome where
  faces_metadata : List FacesRecord
  broken_videos : List String
  printedBroken : Nat
  printedTotal : Nat
deriving DecidableEq

/-- One iteration of the collection loop of
`extract_faces_from_videos_parallel` (source lines 131–139): a tuple
result (`Sum.inr`) appends its `{'faces', 'video', 'group'}` record to
`faces_metadata`; anything else is appended to `broken_videos`. -/
def classifyStep (acc : List FacesRecord × List String)
    (saving_result : Sum String (List String × String × String)) :
    List FacesRecord × List String :=
  match saving_result with
  | .inr t => (acc.1 ++ [⟨t.1, basename t.2.1, t.2.2⟩], acc.2)
  | .inl p => (acc.1, acc.2 ++ [p])

/-- Embeds `prepare_data.extract_faces_from_videos_parallel` (source lines
118–147).  `results` is the stream of per-video `save_faces_from_video`
values in the completion order produced by `Pool.imap_unordered` — an
arbitrary permutation of the per-path results.  A result is classified
successful exactly when it is a tuple (`Sum.inr`), broken otherwise. -/
def extract_faces_from_videos_parallel (paths : List String)
    (results : List (Sum String (List String × String × String))) :
    ParallelOutcome :=
  let acc := results.foldl classifyStep ([], [])
  ⟨acc.1, acc.2, acc.2.length, paths.length⟩

/-- One value of the metadata JSON object:
`{'label': int(label), 'group': ..., 'video': ...}`. -/
structure FaceMetaValue where
  label : Int
  group : String
  video : String
deriving DecidableEq

/-- The value `save_faces_metadata_to_json` stores for a crop of the
(label, record) pair `lf`: the video's boolean label cast to `0`/`1`
(`int(label)`), the record's group and source video file name. -/
def mkValue (lf : Bool × FacesRecord) : FaceMetaValue :=
  ⟨if lf.1 then 1 else 0, lf.2.group, lf.2.video⟩

/-- Python `dict` assignment `d[k] = v`: replace the value if the key is
present, otherwise append the new binding. -/
def dictInsert (m : List (String × FaceMetaValue)) (k : String)
    (v : FaceMetaValue) : List (String × FaceMetaValue) :=
  if m.any (fun p => p.1 = k) then
    m.map (fun p => if p.1 = k then (k, v) else p)
  else m ++ [(k, v)]

/-- Python `d[k]` / key lookup on the dictionary model. -/
def dictLookup (m : List (String × FaceMetaValue)) (k : String) :
    Option FaceMetaValue :=
  (m.find? (fun p => p.1 = k)).map (·.2)

/-- Insertion of all crops of one `(label, faces_batch)` pair — the inner
loop of `save_faces_metadata_to_json` (source lines 160–165). -/
def insertRecord (fm : List (String × FaceMetaValue))
    (lf : Bool × FacesRecord) : List (String × FaceMetaValue) :=
  lf.2.faces.foldl (fun fm face_path =>
    dictInsert fm (basename face_path) (mkValue lf)) fm

/-- Embeds `prepare_data.save_faces_metadata_to_json` (source lines 150–168):
build the flat `{basename(face_path): {label, group, video}}` dictionary
from the index-aligned label and record arrays (`zip(labels, faces)`) and
return the object that gets dumped to the metadata path. -/
def save_faces_metadata_to_json (labels : List Bool)
    (faces : List FacesRecord) : List (String × FaceMetaValue) :=
  (labels.zip faces).foldl insertRecord []

/-- Modelled from the spec: the grouped-shuffle-split boundary dependency
(`GroupShuffleSplit(n_splits=1, train_size=0.8, random_state=SEED)` in the
main flow, source lines 187–188) is external to the repository.  Per the
spec (§4.3 step 4) it yields index arrays such that all records sharing a
group id land entirely in one split.  The randomized choice of train-side
groups is abstracted as the predicate `trainGroups`. -/
def groupedSplitIdx (faces_groups : List String)
    (trainGroups : String → Bool) : List Nat × List Nat :=
  ((List.range faces_groups.length).filter
      (fun i => trainGroups (faces_groups.getD i "")),
   (List.range faces_groups.length).filter
      (fun i => !trainGroups (faces_groups.getD i "")))

/-- The split-and-save tail of the main flow (source lines 183–199):
derive `faces_groups` from the extraction records, split with the grouped
splitter, and build the train- and validation-subset metadata objects from
the index-selected labels and records. -/
def mainFlowSplitMetadata (faces : List FacesRecord)
    (faces_labels : List Bool) (trainGroups : String → Bool) :
    List (String × FaceMetaValue) × List (String × FaceMetaValue) :=
  let faces_groups := faces.map (·.group)
  let idx := groupedSplitIdx faces_groups trainGroups
  (save_faces_metadata_to_json (idx.1.map (faces_labels.getD · false))
      (idx.1.map (fun i => faces.getD i default)),
   save_faces_metadata_to_json (idx.2.map (faces_labels.getD · false))
      (idx.2.map (fun i => faces.getD i default)))

end PrepareData

namespace DaliDataset

/-- Embeds `dali_dataset.FRAMES_PER_VIDEO` (source line 10) — the module-level
constant of the GPU pipeline file, hardcoded to `8` independently of the
configuration registry. -/
def framesPerVideo : Nat := 8

/-- Embeds `dali_dataset.VideoPipeline` (source lines 12–63): the parameters of
the three-stage decode → element-extract → resize graph, as configured in
`__init__`. -/
structure VideoPipeline where
  batch_size : Nat
  num_threads : Nat
  device_id : Nat
  seed : Nat
  sequence_length : Nat
  shard_id : Nat
  num_shards : Nat
  random_shuffle : Bool
  initial_fill : Nat
  filenames : List String
  element_map : List Nat
  resize_x : Nat
  resize_y : Nat
deriving DecidableEq

/-- Embeds `VideoPipeline.__init__` (source lines 15–54): seed 16, a single-shard
GPU video reader with the given sequence length, an `ElementExtract` with
`element_map = list(range(0, FRAMES_PER_VIDEO))`, and a resize stage to
`IMG_SIZE × IMG_SIZE`. -/
def VideoPipeline.build (cfg : Config)
    (batch_size num_threads device_id sequence_length initial_prefetch_size : Nat)
    (data : List String) (shuffle : Bool) : VideoPipeline :=
  ⟨batch_size, num_threads, device_id, 16, sequence_length, 0, 1, shuffle,
   initial_prefetch_size, data, List.range framesPerVideo,
   cfg.imgSize, cfg.imgSize⟩

/-- Embeds `VideoPipeline.define_graph` (source lines 56–63) on one decoded
sequence: extract the elements listed in `element_map` and resize each
extracted frame independently (the resize kernel is the abstract
`resize`). -/
def VideoPipeline.defineGraph [Inhabited α] (p : VideoPipeline)
    (resize : α → α) (frames : List α) : List α :=
  (p.element_map.map (fun i => frames.getD i default)).map resize

/-- Embeds `dali_dataset.unwrap_frames_sequence` (source lines 66–73): turn the
tuple of per-frame outputs into a flat dataset of single frames —
`[frame for frame in frames]`. -/
def unwrap_frames_sequence (frames : List α) : List α :=
  frames.map (fun frame => frame)

/-- Embeds `dali_dataset.repeat_labels` (source lines 76–83): repeat one video's
label `FRAMES_PER_VIDEO` times — `[label for i in range(FRAMES_PER_VIDEO)]`. -/
def repeat_labels (label : α) : List α :=
  (List.range framesPerVideo).map (fun _ => label)

/-- The dataset `get_dali_dataset` assembles: the constructed pipeline,
the declared per-frame shapes, the flattened frame stream, the flattened
repeated-label stream, and their zip. -/
structure Assembled (α β : Type) where
  pipeline : VideoPipeline
  shapes : List (Nat × Nat × Nat)
  features : List α
  labelStream : List β
  pairs : List (α × β)

/-- Embeds `dali_dataset.get_dali_dataset` (source lines 86–119): build the
pipeline with `sequence_length = FRAMES_PER_VIDEO`, flat-map the per-video
frame tuples through `unwrap_frames_sequence`, flat-map the labels through
`repeat_labels`, and zip the two streams index-for-index.  `decodedVideos`
stands for the reader's decoded per-video sequences (external GPU
decoder). -/
def get_dali_dataset [Inhabited α] (cfg : Config) (resize : α → α)
    (decodedVideos : List (List α)) (video_file_paths : List String)
    (labels : List β) : Assembled α β :=
  let video_pipeline :=
    VideoPipeline.build cfg 1 2 0 framesPerVideo 16 video_file_paths true
  let features := (decodedVideos.map (fun seq =>
    unwrap_frames_sequence (video_pipeline.defineGraph resize seq))).flatten
  let labelStream := (labels.map repeat_labels).flatten
  ⟨video_pipeline,
   (List.range framesPerVideo).map (fun _ => (cfg.imgSize, cfg.imgSize, 3)),
   features, labelStream, features.zip labelStream⟩

end DaliDataset

/-- C1: the claim as stated is false — after the final clamp the returned
rectangle can fail `|width − height| ≤ 1`.  Concrete input: rectangle
`(0, 0, 10, 30)` inside a `10 × 30` image satisfies the claim's hypotheses
(`end_x > start_x`, `end_y > start_y`, enclosed by the image), but the
returned rectangle is `(0, 0, 10, 30)` itself, whose width/height differ
by `20`. -/
theorem extend_rect_claim_counterexample :
    Utils.extend_rect_to_square 0 0 10 30 10 30 = (0, 0, 10, 30) ∧
    ¬ (((10 : Int) - 0) - (30 - 0) ≤ 1 ∧ -(((10 : Int) - 0) - (30 - 0)) ≤ 1) := by
  constructor
  · rfl
  · decide

/-- C1 (amended): for every input rectangle with `end_x > start_x`,
`end_y > start_y` enclosed by the image, the rectangle produced by the
extension step *before clamping* has `|width − height| ≤ 1` and exactly the
input rectangle's center (coordinate sums are preserved), and the rectangle
returned after clamping lies fully inside `[0, image_width] × [0, image_height]`
(the clamp may break squareness and move the center near an edge). -/
theorem extend_rect_to_square_spec
    (start_x start_y end_x end_y image_width image_height : Int)
    (usx usy uex uey rsx rsy rex rey : Int)
    (hx : start_x < end_x) (hy : start_y < end_y)
    (hx0 : 0 ≤ start_x) (hy0 : 0 ≤ start_y)
    (hxw : end_x ≤ image_width) (hyh : end_y ≤ image_height)
    (hu : Utils.extend_rect_unclamped start_x start_y end_x end_y
        = (usx, usy, uex, uey))
    (hr : Utils.extend_rect_to_square start_x start_y end_x end_y
        image_width image_height = (rsx, rsy, rex, rey)) :
    ((uex - usx) - (uey - usy) ≤ 1 ∧ (uey - usy) - (uex - usx) ≤ 1) ∧
    (usx + uex = start_x + end_x ∧ usy + uey = start_y + end_y) ∧
    (0 ≤ rsx ∧ 0 ≤ rsy ∧ rsx ≤ image_width ∧ rsy ≤ image_height ∧
     0 ≤ rex ∧ 0 ≤ rey ∧ rex ≤ image_width ∧ rey ≤ image_height) := by
  simp only [Utils.extend_rect_to_square, Utils.extend_rect_unclamped] at hu hr
  split at hu <;> split at hr <;>
    simp only [Prod.mk.injEq] at hu hr <;>
    obtain ⟨e1, e2, e3, e4⟩ := hu <;>
    obtain ⟨f1, f2, f3, f4⟩ := hr <;>
    subst e1 e2 e3 e4 f1 f2 f3 f4 <;>
    omega

/-- Witness for `extend_rect_to_square_spec` at the spec's own worked example:
rectangle `(10, 10, 30, 50)` inside a `100 × 100` image. -/
theorem extend_rect_to_square_spec_witness :
    (((40 : Int) - 0) - (50 - 10) ≤ 1 ∧ ((50 : Int) - 10) - (40 - 0) ≤ 1) ∧
    ((0 : Int) + 40 = 10 + 30 ∧ (10 : Int) + 50 = 10 + 50) ∧
    ((0 : Int) ≤ 0 ∧ (0 : Int) ≤ 10 ∧ (0 : Int) ≤ 100 ∧ (10 : Int) ≤ 100 ∧
     (0 : Int) ≤ 40 ∧ (0 : Int) ≤ 50 ∧ (40 : Int) ≤ 100 ∧ (50 : Int) ≤ 100) := by
  exact extend_rect_to_square_spec 10 10 30 50 100 100 0 10 40 50 0 10 40 50
    (by decide) (by decide) (by decide) (by decide) (by decide) (by decide)
    (by decide) (by decide)

theorem flatten_map_const_length {γ δ : Type} (f : γ → List δ) (n : Nat)
    (h : ∀ x, (f x).length = n) :
    ∀ l : List γ, ((l.map f).flatten).length = l.length * n
  | [] => by simp
  | x :: xs => by
    simp [flatten_map_const_length f n h xs, h x, Nat.succ_mul, Nat.add_comm]

/-- C8: the face-image name derivation strips the 4-character extension and
appends `_{frame}.png` with the ordinal zero-padded to three digits below
10, to two digits with one leading zero for 10–99, and unpadded from 100
up; with no ordinal only `.png` is appended.  Checked at the concrete
boundary values of the claim and in general. -/
theorem get_image_name_from_video_name_spec :
    PrepareData.get_image_name_from_video_name "abc.mp4" (some 5) = "abc_005.png" ∧
    PrepareData.get_image_name_from_video_name "abc.mp4" (some 42) = "abc_042.png" ∧
    PrepareData.get_image_name_from_video_name "abc.mp4" (some 123) = "abc_123.png" ∧
    PrepareData.get_image_name_from_video_name "abc.mp4" none = "abc.png" ∧
    ∀ (video_name : String) (f : Nat),
      PrepareData.get_image_name_from_video_name video_name none =
        video_name.dropRight 4 ++ ".png" ∧
      (f ≤ 9 →
        PrepareData.get_image_name_from_video_name video_name (some f) =
          video_name.dropRight 4 ++ "_00" ++ toString f ++ ".png") ∧
      (10 ≤ f → f ≤ 99 →
        PrepareData.get_image_name_from_video_name video_name (some f) =
          video_name.dropRight 4 ++ "_0" ++ toString f ++ ".png") ∧
      (100 ≤ f →
        PrepareData.get_image_name_from_video_name video_name (some f) =
          video_name.dropRight 4 ++ "_" ++ toString f ++ ".png") := by
  refine ⟨by decide, by decide, by decide, by decide,
    fun video_name f => ⟨rfl, fun h => ?_, fun h1 h2 => ?_, fun h => ?_⟩⟩
  · simp only [PrepareData.get_image_name_from_video_name]
    rw [if_neg (by omega), if_neg (by omega)]
  · simp only [PrepareData.get_image_name_from_video_name]
    rw [if_neg (by omega), if_pos (by omega)]
  · simp only [PrepareData.get_image_name_from_video_name]
    rw [if_pos (by omega)]

/-- C3: the neural-detector extraction either returns exactly
`FRAMES_PER_VIDEO` crops or raises (the final `assert`), and whenever the
scan accumulates fewer than `FRAMES_PER_VIDEO` crops it raises instead of
returning the shorter sequence. -/
theorem read_faces_from_video_spec (cfg : Config) (frames : List Utils.Frame)
    (img_size : Option Nat) (swap_channels : Bool) :
    ((∃ l, Utils.read_faces_from_video cfg frames img_size swap_channels = .ok l ∧
        l.length = cfg.framesPerVideo) ∨
      Utils.read_faces_from_video cfg frames img_size swap_channels = .error ()) ∧
    ((Utils.readFacesLoop cfg.framesPerVideo img_size swap_channels
        frames.enum []).length < cfg.framesPerVideo →
      Utils.read_faces_from_video cfg frames img_size swap_channels = .error ()) := by
  by_cases hL : (Utils.readFacesLoop cfg.framesPerVideo img_size swap_channels
      frames.enum []).length = cfg.framesPerVideo
  · exact ⟨.inl ⟨_, by simp [Utils.read_faces_from_video, hL], hL⟩,
      fun hlt => absurd hL (by omega)⟩
  · exact ⟨.inr (by simp [Utils.read_faces_from_video, hL]),
      fun _ => by simp [Utils.read_faces_from_video, hL]⟩

theorem read_faces_from_video_spec_witness :
    ((∃ l, Utils.read_faces_from_video ⟨2, "faces", 5⟩ [] none false = .ok l ∧
        l.length = 2) ∨
      Utils.read_faces_from_video ⟨2, "faces", 5⟩ [] none false = .error ()) ∧
    ((Utils.readFacesLoop 2 none false (List.enum ([] : List Utils.Frame))
        []).length < 2 →
      Utils.read_faces_from_video ⟨2, "faces", 5⟩ [] none false = .error ()) :=
  read_faces_from_video_spec ⟨2, "faces", 5⟩ [] none false

/-- C9: in the GPU pipeline, the sequence length given to the video
source, the length of the `element_map` index list, and the number of
repeated label copies per video are all equal to 8 (`FRAMES_PER_VIDEO`),
so per video the frame flattening and the label repetition each yield
exactly `FRAMES_PER_VIDEO` elements. -/
theorem dali_alignment {α β : Type} [Inhabited α] (cfg : Config)
    (resize : α → α) (decodedVideos : List (List α))
    (video_file_paths : List String) (labels : List β) (l : β) (seq : List α) :
    (DaliDataset.get_dali_dataset cfg resize decodedVideos video_file_paths
        labels).pipeline.sequence_length = DaliDataset.framesPerVideo ∧
    (DaliDataset.get_dali_dataset cfg resize decodedVideos video_file_paths
        labels).pipeline.element_map.length = DaliDataset.framesPerVideo ∧
    (DaliDataset.repeat_labels l).length = DaliDataset.framesPerVideo ∧
    DaliDataset.framesPerVideo = 8 ∧
    (DaliDataset.unwrap_frames_sequence
      ((DaliDataset.get_dali_dataset cfg resize decodedVideos video_file_paths
        labels).pipeline.defineGraph resize seq)).length =
      DaliDataset.framesPerVideo ∧
    (DaliDataset.get_dali_dataset cfg resize decodedVideos video_file_paths
        labels).features.length =
      decodedVideos.length * DaliDataset.framesPerVideo ∧
    (DaliDataset.get_dali_dataset cfg resize decodedVideos video_file_paths
        labels).labelStream.length =
      labels.length * DaliDataset.framesPerVideo := by
  refine ⟨rfl, ?_, ?_, rfl, ?_, ?_, ?_⟩
  · simp [DaliDataset.get_dali_dataset, DaliDataset.VideoPipeline.build]
  · simp [DaliDataset.repeat_labels]
  · simp [DaliDataset.get_dali_dataset, DaliDataset.VideoPipeline.build,
      DaliDataset.VideoPipeline.defineGraph, DaliDataset.unwrap_frames_sequence]
  · simp only [DaliDataset.get_dali_dataset]
    exact flatten_map_const_length _ _ (fun s => by
      simp [DaliDataset.unwrap_frames_sequence, DaliDataset.VideoPipeline.defineGraph,
        DaliDataset.VideoPipeline.build]) decodedVideos
  · simp only [DaliDataset.get_dali_dataset]
    exact flatten_map_const_length _ _ (fun s => by
      simp [DaliDataset.repeat_labels]) labels

theorem writeFacesLoop_fails (writeFails : String → Bool) :
    ∀ (pairs : List (String × Utils.Crop)) (j : Nat) (fs : List String),
      j < pairs.length →
      (∀ k, k < j → writeFails (pairs.getD k default).1 = false) →
      writeFails (pairs.getD j default).1 = true →
      PrepareData.writeFacesLoop writeFails pairs fs =
        (false, fs ++ (pairs.take j).map (·.1))
  | [], j, fs, hj, _, _ => absurd hj (by simp)
  | (p, c) :: rest, 0, fs, _, _, hfail => by
    simp only [List.getD_cons_zero] at hfail
    simp [PrepareData.writeFacesLoop, hfail]
  | (p, c) :: rest, j + 1, fs, hj, hpre, hfail => by
    have hp0 : writeFails p = false := by
      simpa using hpre 0 (Nat.succ_pos j)
    simp only [List.getD_cons_succ] at hfail
    simp only [PrepareData.writeFacesLoop, hp0, Bool.false_eq_true, if_false]
    rw [writeFacesLoop_fails writeFails rest j (fs ++ [p])
      (by simpa using hj)
      (fun k hk => by simpa using hpre (k + 1) (by omega))
      hfail]
    simp

/-- C4: the per-video extraction step is idempotent — when all
`FRAMES_PER_VIDEO` derived crop paths already exist on disk, it returns
exactly those paths with the source path and group, performs zero detector
invocations and writes nothing, so a second run on the resulting
filesystem returns the identical outcome. -/
theorem save_faces_from_video_idempotent (cfg : Config)
    (decoded : List Utils.Frame) (writeFails : String → Bool)
    (fs : List String) (video_path : String)
    (hall : ∀ p ∈ PrepareData.face_paths_for cfg
      (PrepareData.basename video_path), p ∈ fs) :
    PrepareData.save_faces_from_video cfg decoded writeFails fs video_path =
      ⟨.inr (PrepareData.face_paths_for cfg (PrepareData.basename video_path),
        video_path, PrepareData.penultimateComponent video_path), fs, 0⟩ ∧
    PrepareData.save_faces_from_video cfg decoded writeFails
        (PrepareData.save_faces_from_video cfg decoded writeFails fs
          video_path).fs video_path =
      PrepareData.save_faces_from_video cfg decoded writeFails fs video_path := by
  have hb : ((PrepareData.face_paths_for cfg
      (PrepareData.basename video_path)).all (fs.contains ·)) = true := by
    rw [List.all_eq_true]
    intro p hp
    simpa using hall p hp
  have h1 : PrepareData.save_faces_from_video cfg decoded writeFails fs video_path =
      ⟨.inr (PrepareData.face_paths_for cfg (PrepareData.basename video_path),
        video_path, PrepareData.penultimateComponent video_path), fs, 0⟩ := by
    simp only [PrepareData.save_faces_from_video]
    rw [hb]
    simp
  refine ⟨h1, ?_⟩
  rw [h1]
  exact h1

theorem save_faces_from_video_idempotent_witness :
    PrepareData.save_faces_from_video ⟨2, "faces", 5⟩ [] (fun _ => false)
        ["faces/x_000.png", "faces/x_001.png"] "a/b/x.mp4" =
      ⟨.inr (PrepareData.face_paths_for ⟨2, "faces", 5⟩
          (PrepareData.basename "a/b/x.mp4"), "a/b/x.mp4",
        PrepareData.penultimateComponent "a/b/x.mp4"),
        ["faces/x_000.png", "faces/x_001.png"], 0⟩ ∧
    PrepareData.save_faces_from_video ⟨2, "faces", 5⟩ [] (fun _ => false)
        (PrepareData.save_faces_from_video ⟨2, "faces", 5⟩ [] (fun _ => false)
          ["faces/x_000.png", "faces/x_001.png"] "a/b/x.mp4").fs "a/b/x.mp4" =
      PrepareData.save_faces_from_video ⟨2, "faces", 5⟩ [] (fun _ => false)
        ["faces/x_000.png", "faces/x_001.png"] "a/b/x.mp4" :=
  save_faces_from_video_idempotent ⟨2, "faces", 5⟩ [] (fun _ => false)
    ["faces/x_000.png", "faces/x_001.png"] "a/b/x.mp4" (by decide)

/-- C5: when not all crop files pre-exist, a raised detection failure
makes the step return only the source video path with the filesystem
untouched, and a failure while writing the `j`-th crop makes it return
only the source video path with exactly the first `j` written crops left
on disk (not deleted). -/
theorem save_faces_from_video_failure (cfg : Config)
    (decoded : List Utils.Frame) (writeFails : String → Bool)
    (fs : List String) (video_path : String)
    (hnall : ¬ ∀ p ∈ PrepareData.face_paths_for cfg
      (PrepareData.basename video_path), p ∈ fs) :
    (Utils.read_faces_from_video cfg decoded none false = .error () →
      PrepareData.save_faces_from_video cfg decoded writeFails fs video_path =
        ⟨.inl video_path, fs, 1⟩) ∧
    (∀ (faces_to_save : List Utils.Crop) (j : Nat),
      Utils.read_faces_from_video cfg decoded none false = .ok faces_to_save →
      j < ((PrepareData.face_paths_for cfg
        (PrepareData.basename video_path)).zip faces_to_save).length →
      (∀ k, k < j → writeFails (((PrepareData.face_paths_for cfg
        (PrepareData.basename video_path)).zip faces_to_save).getD k
          default).1 = false) →
      writeFails (((PrepareData.face_paths_for cfg
        (PrepareData.basename video_path)).zip faces_to_save).getD j
          default).1 = true →
      PrepareData.save_faces_from_video cfg decoded writeFails fs video_path =
        ⟨.inl video_path,
          fs ++ (((PrepareData.face_paths_for cfg
            (PrepareData.basename video_path)).zip faces_to_save).take j).map
              (·.1), 1⟩) := by
  have hb : ((PrepareData.face_paths_for cfg
      (PrepareData.basename video_path)).all (fs.contains ·)) = false := by
    rw [Bool.eq_false_iff]
    intro hc
    rw [List.all_eq_true] at hc
    exact hnall fun p hp => by simpa using hc p hp
  constructor
  · intro herr
    simp only [PrepareData.save_faces_from_video]
    rw [hb]
    simp [herr]
  · intro faces_to_save j hok hj hpre hfail
    simp only [PrepareData.save_faces_from_video]
    rw [hb]
    simp only [Bool.false_eq_true, if_false, hok]
    rw [writeFacesLoop_fails writeFails _ j fs hj hpre hfail]
    simp

theorem save_faces_from_video_failure_witness :
    (Utils.read_faces_from_video ⟨1, "faces", 5⟩ [] none false = .error () →
      PrepareData.save_faces_from_video ⟨1, "faces", 5⟩ [] (fun _ => false)
          [] "g/v.mp4" = ⟨.inl "g/v.mp4", [], 1⟩) ∧
    (∀ (faces_to_save : List Utils.Crop) (j : Nat),
      Utils.read_faces_from_video ⟨1, "faces", 5⟩ [] none false =
        .ok faces_to_save →
      j < ((PrepareData.face_paths_for ⟨1, "faces", 5⟩
        (PrepareData.basename "g/v.mp4")).zip faces_to_save).length →
      (∀ k, k < j → (fun _ => false) (((PrepareData.face_paths_for
        ⟨1, "faces", 5⟩ (PrepareData.basename "g/v.mp4")).zip
          faces_to_save).getD k default).1 = false) →
      (fun _ => false) (((PrepareData.face_paths_for ⟨1, "faces", 5⟩
        (PrepareData.basename "g/v.mp4")).zip faces_to_save).getD j
          default).1 = true →
      PrepareData.save_faces_from_video ⟨1, "faces", 5⟩ [] (fun _ => false)
          [] "g/v.mp4" =
        ⟨.inl "g/v.mp4",
          [] ++ (((PrepareData.face_paths_for ⟨1, "faces", 5⟩
            (PrepareData.basename "g/v.mp4")).zip faces_to_save).take j).map
              (·.1), 1⟩) :=
  save_faces_from_video_failure ⟨1, "faces", 5⟩ [] (fun _ => false) []
    "g/v.mp4" (by decide)

theorem classifyFold_lengths :
    ∀ (results : List (Sum String (List String × String × String)))
      (acc : List PrepareData.FacesRecord × List String),
      ((results.foldl PrepareData.classifyStep acc).1.length
          = acc.1.length + results.countP Sum.isRight) ∧
      ((results.foldl PrepareData.classifyStep acc).2.length
          = acc.2.length + results.countP Sum.isLeft)
  | [], acc => by simp
  | r :: rest, acc => by
    obtain ⟨ih1, ih2⟩ := classifyFold_lengths rest (PrepareData.classifyStep acc r)
    cases r with
    | inl p =>
      simp [List.countP_cons, PrepareData.classifyStep, Sum.isLeft,
        Sum.isRight] at ih1 ih2 ⊢
      omega
    | inr t =>
      simp [List.countP_cons, PrepareData.classifyStep, Sum.isLeft,
        Sum.isRight] at ih1 ih2 ⊢
      omega

theorem countP_isLeft_add_isRight :
    ∀ (l : List (Sum String (List String × String × String))),
      l.countP Sum.isLeft + l.countP Sum.isRight = l.length
  | [] => by simp
  | r :: rest => by
    have ih := countP_isLeft_add_isRight rest
    cases r <;> simp [List.countP_cons, Sum.isLeft, Sum.isRight] <;> omega

/-- C6: over `n` input paths whose per-video extraction (`step`) fails for
exactly `k`, and any completion-order permutation `results` of the
per-path outcomes, the broken-videos JSON array has exactly `k` entries,
the returned successful-results array has exactly `n − k` entries, and the
printed broken count equals `k` (out of `n`); classification is by
tuple-ness (`Sum.inr`) alone. -/
theorem extract_faces_parallel_accounting (paths : List String)
    (step : String → Sum String (List String × String × String))
    (results : List (Sum String (List String × String × String))) (k : Nat)
    (hperm : results.Perm (paths.map step))
    (hk : (paths.map step).countP Sum.isLeft = k) :
    (PrepareData.extract_faces_from_videos_parallel paths
        results).broken_videos.length = k ∧
    (PrepareData.extract_faces_from_videos_parallel paths
        results).faces_metadata.length = paths.length - k ∧
    (PrepareData.extract_faces_from_videos_parallel paths
        results).printedBroken = k ∧
    (PrepareData.extract_faces_from_videos_parallel paths
        results).printedTotal = paths.length := by
  obtain ⟨h1, h2⟩ := classifyFold_lengths results ([], [])
  have hcl : results.countP Sum.isLeft = k := by
    rw [hperm.countP_eq Sum.isLeft, hk]
  have hcr : results.countP Sum.isRight = paths.length - k := by
    have htot := countP_isLeft_add_isRight results
    have hlen : results.length = paths.length := by
      rw [hperm.length_eq, List.length_map]
    omega
  have e1 : (PrepareData.extract_faces_from_videos_parallel paths
      results).broken_videos.length = results.countP Sum.isLeft := by
    simp only [PrepareData.extract_faces_from_videos_parallel]
    simpa using h2
  have e2 : (PrepareData.extract_faces_from_videos_parallel paths
      results).faces_metadata.length = results.countP Sum.isRight := by
    simp only [PrepareData.extract_faces_from_videos_parallel]
    simpa using h1
  refine ⟨by rw [e1, hcl], by rw [e2, hcr], ?_, rfl⟩
  show (results.foldl PrepareData.classifyStep ([], [])).2.length = k
  simpa [hcl] using h2

theorem extract_faces_parallel_accounting_witness :
    (PrepareData.extract_faces_from_videos_parallel
        ["a/x.mp4", "b/y.mp4", "c/z.mp4"]
        [.inr (["f1"], "b/y.mp4", "b"), .inl "a/x.mp4",
          .inr (["f2"], "c/z.mp4", "c")]).broken_videos.length = 1 ∧
    (PrepareData.extract_faces_from_videos_parallel
        ["a/x.mp4", "b/y.mp4", "c/z.mp4"]
        [.inr (["f1"], "b/y.mp4", "b"), .inl "a/x.mp4",
          .inr (["f2"], "c/z.mp4", "c")]).faces_metadata.length = 3 - 1 ∧
    (PrepareData.extract_faces_from_videos_parallel
        ["a/x.mp4", "b/y.mp4", "c/z.mp4"]
        [.inr (["f1"], "b/y.mp4", "b"), .inl "a/x.mp4",
          .inr (["f2"], "c/z.mp4", "c")]).printedBroken = 1 ∧
    (PrepareData.extract_faces_from_videos_parallel
        ["a/x.mp4", "b/y.mp4", "c/z.mp4"]
        [.inr (["f1"], "b/y.mp4", "b"), .inl "a/x.mp4",
          .inr (["f2"], "c/z.mp4", "c")]).printedTotal =
      (["a/x.mp4", "b/y.mp4", "c/z.mp4"] : List String).length :=
  extract_faces_parallel_accounting ["a/x.mp4", "b/y.mp4", "c/z.mp4"]
    (fun p => if p = "a/x.mp4" then .inl "a/x.mp4"
      else if p = "b/y.mp4" then .inr (["f1"], "b/y.mp4", "b")
      else .inr (["f2"], "c/z.mp4", "c"))
    [.inr (["f1"], "b/y.mp4", "b"), .inl "a/x.mp4",
      .inr (["f2"], "c/z.mp4", "c")] 1 (by decide) (by decide)

theorem find?_replace_ne (k k' : String) (v : PrepareData.FaceMetaValue)
    (hne : k' ≠ k) :
    ∀ m : List (String × PrepareData.FaceMetaValue),
      (m.map (fun p => if p.1 = k then (k, v) else p)).find?
          (fun p => p.1 = k') =
        m.find? (fun p => p.1 = k')
  | [] => rfl
  | p :: m' => by
    by_cases hp : p.1 = k
    · have hp' : ¬ (p.1 = k') := by rw [hp]; exact Ne.symm hne
      rw [List.map_cons, if_pos hp,
        List.find?_cons_of_neg _ (by simpa using Ne.symm hne),
        List.find?_cons_of_neg _ (by simpa using hp')]
      exact find?_replace_ne k k' v hne m'
    · rw [List.map_cons, if_neg hp]
      by_cases hq : p.1 = k'
      · rw [List.find?_cons_of_pos _ (by simpa using hq),
          List.find?_cons_of_pos _ (by simpa using hq)]
      · rw [List.find?_cons_of_neg _ (by simpa using hq),
          List.find?_cons_of_neg _ (by simpa using hq)]
        exact find?_replace_ne k k' v hne m'

theorem find?_replace_eq (k : String) (v : PrepareData.FaceMetaValue) :
    ∀ m : List (String × PrepareData.FaceMetaValue),
      m.any (fun p => p.1 = k) = true →
      (m.map (fun p => if p.1 = k then (k, v) else p)).find?
          (fun p => p.1 = k) = some (k, v)
  | [], h => by simp at h
  | p :: m', h => by
    by_cases hp : p.1 = k
    · simp [hp]
    · have h' : m'.any (fun p => p.1 = k) = true := by simpa [hp] using h
      simp [hp, find?_replace_eq k v m' h']

theorem dictLookup_dictInsert (m : List (String × PrepareData.FaceMetaValue))
    (k k' : String) (v : PrepareData.FaceMetaValue) :
    PrepareData.dictLookup (PrepareData.dictInsert m k v) k' =
      if k' = k then some v else PrepareData.dictLookup m k' := by
  unfold PrepareData.dictLookup PrepareData.dictInsert
  by_cases hany : m.any (fun p => p.1 = k) = true
  · rw [if_pos hany]
    by_cases hk : k' = k
    · subst hk
      rw [if_pos rfl, find?_replace_eq k' v m hany]
      rfl
    · rw [if_neg hk, find?_replace_ne k k' v hk m]
  · rw [if_neg hany]
    have hnone : m.find? (fun p => p.1 = k) = none := by
      rw [List.find?_eq_none]
      intro x hx hc
      exact hany (List.any_eq_true.mpr ⟨x, hx, hc⟩)
    by_cases hk : k' = k
    · subst hk
      rw [if_pos rfl, List.find?_append, hnone]
      simp
    · rw [if_neg hk, List.find?_append]
      have : ([(k, v)].find? (fun p => p.1 = k')) = none := by
        simp [Ne.symm hk]
      rw [this]
      cases m.find? (fun p => p.1 = k') <;> rfl

theorem dictLookup_foldl_dictInsert (v : PrepareData.FaceMetaValue) :
    ∀ (paths : List String)
      (fm : List (String × PrepareData.FaceMetaValue)) (k : String),
      PrepareData.dictLookup
          (paths.foldl (fun fm p =>
            PrepareData.dictInsert fm (PrepareData.basename p) v) fm) k =
        if ∃ p ∈ paths, PrepareData.basename p = k then some v
        else PrepareData.dictLookup fm k
  | [], fm, k => by simp
  | q :: rest, fm, k => by
    rw [List.foldl_cons, dictLookup_foldl_dictInsert v rest _ k]
    by_cases hrest : ∃ p ∈ rest, PrepareData.basename p = k
    · rw [if_pos hrest, if_pos (by exact ⟨hrest.choose, .tail _ hrest.choose_spec.1,
        hrest.choose_spec.2⟩)]
    · rw [if_neg hrest, dictLookup_dictInsert]
      by_cases hq : PrepareData.basename q = k
      · rw [if_pos (Eq.symm hq), if_pos ⟨q, .head _, hq⟩]
      · rw [if_neg (fun h => hq h.symm), if_neg (by
          rintro ⟨p, hp, hpk⟩
          rcases List.mem_cons.mp hp with rfl | hp'
          · exact hq hpk
          · exact hrest ⟨p, hp', hpk⟩)]

theorem dictLookup_insertRecord (fm : List (String × PrepareData.FaceMetaValue))
    (lf : Bool × PrepareData.FacesRecord) (k : String) :
    PrepareData.dictLookup (PrepareData.insertRecord fm lf) k =
      if ∃ p ∈ lf.2.faces, PrepareData.basename p = k
      then some (PrepareData.mkValue lf)
      else PrepareData.dictLookup fm k :=
  dictLookup_foldl_dictInsert (PrepareData.mkValue lf) lf.2.faces fm k

theorem dictInsert_mem {m : List (String × PrepareData.FaceMetaValue)}
    {k : String} {v : PrepareData.FaceMetaValue}
    {kv : String × PrepareData.FaceMetaValue}
    (h : kv ∈ PrepareData.dictInsert m k v) : kv ∈ m ∨ kv = (k, v) := by
  unfold PrepareData.dictInsert at h
  split at h
  · rcases List.mem_map.mp h with ⟨p, hp, hpe⟩
    by_cases hc : p.1 = k
    · right
      rw [← hpe, if_pos hc]
    · left
      rw [← hpe, if_neg hc]
      exact hp
  · rcases List.mem_append.mp h with h | h
    · exact .inl h
    · exact .inr (List.mem_singleton.mp h)

theorem foldl_dictInsert_mem (v : PrepareData.FaceMetaValue) :
    ∀ (paths : List String)
      (fm : List (String × PrepareData.FaceMetaValue))
      (kv : String × PrepareData.FaceMetaValue),
      kv ∈ paths.foldl (fun fm p =>
        PrepareData.dictInsert fm (PrepareData.basename p) v) fm →
      kv ∈ fm ∨ kv.2 = v
  | [], _, _, h => .inl h
  | q :: rest, fm, kv, h => by
    rcases foldl_dictInsert_mem v rest _ kv h with h' | h'
    · rcases dictInsert_mem h' with h'' | h''
      · exact .inl h''
      · exact .inr (by rw [h''])
    · exact .inr h'

theorem foldl_insertRecord_mem :
    ∀ (l : List (Bool × PrepareData.FacesRecord))
      (fm : List (String × PrepareData.FaceMetaValue))
      (kv : String × PrepareData.FaceMetaValue),
      kv ∈ l.foldl PrepareData.insertRecord fm →
      kv ∈ fm ∨ ∃ lf ∈ l, kv.2 = PrepareData.mkValue lf
  | [], _, _, h => .inl h
  | lf :: rest, fm, kv, h => by
    rcases foldl_insertRecord_mem rest _ kv h with h' | ⟨lf', hlf', hv⟩
    · rcases foldl_dictInsert_mem (PrepareData.mkValue lf) lf.2.faces fm kv h' with
        h'' | h''
      · exact .inl h''
      · exact .inr ⟨lf, .head _, h''⟩
    · exact .inr ⟨lf', .tail _ hlf', hv⟩

theorem save_meta_group_from_filter (faces : List PrepareData.FacesRecord)
    (sel : Nat → Bool) (labels' : List Bool)
    (kv : String × PrepareData.FaceMetaValue)
    (h : kv ∈ PrepareData.save_faces_metadata_to_json labels'
      (((List.range faces.length).filter sel).map
        (fun i => faces.getD i default))) :
    ∃ i, i < faces.length ∧ sel i = true ∧
      kv.2.group = (faces.getD i default).group := by
  rcases foldl_insertRecord_mem _ [] kv h with h' | ⟨lf, hlf, hv⟩
  · simp at h'
  · have hf : lf.2 ∈ ((List.range faces.length).filter sel).map
        (fun i => faces.getD i default) := (List.of_mem_zip hlf).2
    rcases List.mem_map.mp hf with ⟨i, hi, hie⟩
    rcases List.mem_filter.mp hi with ⟨hir, hsel⟩
    refine ⟨i, List.mem_range.mp hir, hsel, ?_⟩
    rw [hv]
    show lf.2.group = (faces.getD i default).group
    rw [← hie]

theorem dictLookup_save_foldl (l : List (Bool × PrepareData.FacesRecord)) :
    ∀ (fm : List (String × PrepareData.FaceMetaValue)) (k : String),
      (∃ lf ∈ l, (∃ p ∈ lf.2.faces, PrepareData.basename p = k) ∧
        PrepareData.dictLookup (l.foldl PrepareData.insertRecord fm) k =
          some (PrepareData.mkValue lf)) ∨
      ((∀ lf ∈ l, ∀ p ∈ lf.2.faces, PrepareData.basename p ≠ k) ∧
        PrepareData.dictLookup (l.foldl PrepareData.insertRecord fm) k =
          PrepareData.dictLookup fm k) := by
  induction l using List.reverseRecOn with
  | nil =>
    intro fm k
    right
    exact ⟨by simp, rfl⟩
  | append_singleton l lf ih =>
    intro fm k
    rw [List.foldl_append, List.foldl_cons, List.foldl_nil,
      dictLookup_insertRecord]
    by_cases hw : ∃ p ∈ lf.2.faces, PrepareData.basename p = k
    · left
      exact ⟨lf, List.mem_append_right _ (List.mem_singleton_self _), hw,
        by rw [if_pos hw]⟩
    · rw [if_neg hw]
      rcases ih fm k with ⟨lf', hlf', hw', heq⟩ | ⟨hnone, heq⟩
      · left
        exact ⟨lf', List.mem_append_left _ hlf', hw', heq⟩
      · right
        refine ⟨?_, heq⟩
        intro lf'' hlf'' p hp
        rcases List.mem_append.mp hlf'' with h | h
        · exact hnone lf'' h p hp
        · have he := List.mem_singleton.mp h
          subst he
          exact fun hk => hw ⟨p, hp, hk⟩

theorem mem_keys_of_dictLookup {m : List (String × PrepareData.FaceMetaValue)}
    {k : String} {v : PrepareData.FaceMetaValue}
    (h : PrepareData.dictLookup m k = some v) : k ∈ m.map (·.1) := by
  unfold PrepareData.dictLookup at h
  cases hf : m.find? (fun p => p.1 = k) with
  | none => rw [hf] at h; simp at h
  | some kv =>
    have hm := List.mem_of_find?_eq_some hf
    have hk : kv.1 = k := by simpa using List.find?_some hf
    exact List.mem_map.mpr ⟨kv, hm, hk⟩

/-- C2: in the grouped 80/20 split over extraction results with at least
two distinct groups each contributing a record, no group id occurs both in
the train-subset and in the validation-subset metadata — every group's
face records land entirely on one side. -/
theorem grouped_split_exclusive (faces : List PrepareData.FacesRecord)
    (faces_labels : List Bool) (trainGroups : String → Bool)
    (hg : ∃ f1 ∈ faces, ∃ f2 ∈ faces, f1.group ≠ f2.group)
    (g : String)
    (hgtrain : g ∈ (PrepareData.mainFlowSplitMetadata faces faces_labels
      trainGroups).1.map (fun kv => kv.2.group)) :
    g ∉ (PrepareData.mainFlowSplitMetadata faces faces_labels
      trainGroups).2.map (fun kv => kv.2.group) := by
  intro hgval
  rcases List.mem_map.mp hgtrain with ⟨kv1, hkv1, hg1⟩
  rcases List.mem_map.mp hgval with ⟨kv2, hkv2, hg2⟩
  simp only [PrepareData.mainFlowSplitMetadata, PrepareData.groupedSplitIdx,
    List.length_map] at hkv1 hkv2
  rcases save_meta_group_from_filter faces _ _ kv1 hkv1 with ⟨i, hi, hsel1, hgrp1⟩
  rcases save_meta_group_from_filter faces _ _ kv2 hkv2 with ⟨j, hj, hsel2, hgrp2⟩
  have e1 : (faces.map (fun f => f.group)).getD i "" =
      (faces.getD i default).group := by
    simp [List.getD_eq_getElem?_getD, List.getElem?_map, List.getElem?_eq_getElem hi]
  have e2 : (faces.map (fun f => f.group)).getD j "" =
      (faces.getD j default).group := by
    simp [List.getD_eq_getElem?_getD, List.getElem?_map, List.getElem?_eq_getElem hj]
  rw [e1, ← hgrp1, hg1] at hsel1
  rw [e2, ← hgrp2, hg2] at hsel2
  simp [hsel1] at hsel2

theorem grouped_split_exclusive_witness :
    "g1" ∉ (PrepareData.mainFlowSplitMetadata
      [⟨["d/a.png"], "a.mp4", "g1"⟩, ⟨["d/b.png"], "b.mp4", "g2"⟩]
      [true, false] (fun s => s == "g1")).2.map (fun kv => kv.2.group) :=
  grouped_split_exclusive
    [⟨["d/a.png"], "a.mp4", "g1"⟩, ⟨["d/b.png"], "b.mp4", "g2"⟩]
    [true, false] (fun s => s == "g1") (by decide) "g1" (by decide)

/-- C7: the claim as stated is false — when two index-aligned (label,
record) pairs contribute the same crop base file name with different
values, the written object's value for that key is the later pair's, not
each containing record's.  Concretely, with two records both holding crop
path `d/a.png` (same video name in two chunks, labels `true`/`false`), the
pair `(true, {faces: [d/a.png], video: a.mp4, group: g1})` contains the
path, its dictated value is `{label: 1, group: g1, video: a.mp4}`, but the
written object maps `a.png` to `{label: 0, group: g2, video: a.mp4}`. -/
theorem save_meta_value_counterexample :
    "d/a.png" ∈ (PrepareData.FacesRecord.mk ["d/a.png"] "a.mp4" "g1").faces ∧
    PrepareData.mkValue (true, ⟨["d/a.png"], "a.mp4", "g1"⟩) =
      ⟨1, "g1", "a.mp4"⟩ ∧
    PrepareData.dictLookup
        (PrepareData.save_faces_metadata_to_json [true, false]
          [⟨["d/a.png"], "a.mp4", "g1"⟩, ⟨["d/a.png"], "a.mp4", "g2"⟩])
        (PrepareData.basename "d/a.png") = some ⟨0, "g2", "a.mp4"⟩ ∧
    some (⟨0, "g2", "a.mp4"⟩ : PrepareData.FaceMetaValue) ≠
      some (⟨1, "g1", "a.mp4"⟩ : PrepareData.FaceMetaValue) := by
  decide

/-- C7 (amended): for index-aligned label and record arrays in which no
two (label, record) pairs assign different values to a shared crop base
file name, every crop path's base file name appears as a key of the
written JSON object and its value is the containing record's
`{label: 0/1 cast of the video's boolean label, group, video}`. -/
theorem save_faces_metadata_to_json_spec (labels : List Bool)
    (faces : List PrepareData.FacesRecord)
    (huniq : ∀ lf1 ∈ labels.zip faces, ∀ lf2 ∈ labels.zip faces,
      ∀ p1 ∈ lf1.2.faces, ∀ p2 ∈ lf2.2.faces,
      PrepareData.basename p1 = PrepareData.basename p2 →
      PrepareData.mkValue lf1 = PrepareData.mkValue lf2) :
    ∀ lf ∈ labels.zip faces, ∀ p ∈ lf.2.faces,
      PrepareData.basename p ∈
        (PrepareData.save_faces_metadata_to_json labels faces).map (·.1) ∧
      PrepareData.dictLookup
        (PrepareData.save_faces_metadata_to_json labels faces)
        (PrepareData.basename p) = some (PrepareData.mkValue lf) := by
  intro lf hlf p hp
  rcases dictLookup_save_foldl (labels.zip faces) [] (PrepareData.basename p)
    with ⟨lf', hlf', ⟨p', hp', hbp'⟩, heq⟩ | ⟨hnone, _⟩
  · have hval : PrepareData.mkValue lf' = PrepareData.mkValue lf :=
      huniq lf' hlf' lf hlf p' hp' p hp hbp'
    have hlook : PrepareData.dictLookup
        (PrepareData.save_faces_metadata_to_json labels faces)
        (PrepareData.basename p) = some (PrepareData.mkValue lf) := by
      show PrepareData.dictLookup
        ((labels.zip faces).foldl PrepareData.insertRecord [])
        (PrepareData.basename p) = _
      rw [heq, hval]
    exact ⟨mem_keys_of_dictLookup hlook, hlook⟩
  · exact absurd rfl (hnone lf hlf p hp)

theorem save_faces_metadata_to_json_spec_witness :
    PrepareData.basename "d/a.png" ∈
      (PrepareData.save_faces_metadata_to_json [true]
        [⟨["d/a.png", "d/b.png"], "v.mp4", "g"⟩]).map (·.1) ∧
    PrepareData.dictLookup
      (PrepareData.save_faces_metadata_to_json [true]
        [⟨["d/a.png", "d/b.png"], "v.mp4", "g"⟩])
      (PrepareData.basename "d/a.png") =
      some (PrepareData.mkValue
        (true, (⟨["d/a.png", "d/b.png"], "v.mp4", "g"⟩ :
          PrepareData.FacesRecord))) :=
  save_faces_metadata_to_json_spec [true]
    [⟨["d/a.png", "d/b.png"], "v.mp4", "g"⟩] (by decide)
    (true, (⟨["d/a.png", "d/b.png"], "v.mp4", "g"⟩ : PrepareData.FacesRecord))
    (by decide) "d/a.png" (by decide)

/-- C10: the save-metadata operation keys its output by crop base file
name only, so two records carrying the same base file name (identically
named source videos in two chunks) collapse to one key: the written
object has 1 key against 2 crop paths, and the surviving value is the
later record's. -/
theorem save_meta_basename_collision :
    ((PrepareData.save_faces_metadata_to_json [true, false]
        [⟨["d/a.png"], "a.mp4", "g1"⟩, ⟨["d/a.png"], "a.mp4", "g2"⟩]).map
          (·.1)).length = 1 ∧
    (([⟨["d/a.png"], "a.mp4", "g1"⟩, ⟨["d/a.png"], "a.mp4", "g2"⟩] :
        List PrepareData.FacesRecord).map (fun r => r.faces.length)).sum = 2 ∧
    ((PrepareData.save_faces_metadata_to_json [true, false]
        [⟨["d/a.png"], "a.mp4", "g1"⟩, ⟨["d/a.png"], "a.mp4", "g2"⟩]).map
          (·.1)).length <
      (([⟨["d/a.png"], "a.mp4", "g1"⟩, ⟨["d/a.png"], "a.mp4", "g2"⟩] :
        List PrepareData.FacesRecord).map (fun r => r.faces.length)).sum ∧
    PrepareData.dictLookup
        (PrepareData.save_faces_metadata_to_json [true, false]
          [⟨["d/a.png"], "a.mp4", "g1"⟩, ⟨["d/a.png"], "a.mp4", "g2"⟩])
        "a.png" = some ⟨0, "g2", "a.mp4"⟩ := by
  decide
